import Mathlib

/-
Verification of the styled QR renderer (src/main.rs, src/styles.rs).

Modelling conventions, used throughout:
* Rust `u8`/`u32`/`usize` values are modelled as `Nat` (with explicit
  truncated subtraction and division where the source relies on them).
* `f32` arithmetic is modelled in exact rational arithmetic (`ℚ`).  All the
  float expressions appearing in the source combine machine integers with
  the constants `0.5`, `0.2`, `0.3`, and for the magnitudes reachable here
  (scales and channel values far below 2^20) the float computations agree
  with their exact values; comparisons `sqrt d ≤ r` are modelled by the
  equivalent `d ≤ r ^ 2` on squares.
* Rust float-to-integer casts (`as u8`, `as u32`) truncate toward zero and
  saturate; `castU8` / `natTrunc` model this (negative inputs give 0).
* `RgbaImage` is modelled by `Image`: a width, a height and a total pixel
  function; `put_pixel` only ever gets called inside the source's own
  bounds checks, which are reproduced verbatim in the pixel loops.
* Rust `str::to_lowercase` / `trim` / `split(',')` are modelled by
  `strLower` / `strTrim` / `splitOnComma` over the character list (ASCII
  case folding, which covers every string the program compares against).
-/

/-- Four-channel color, each channel a byte (0..255), as in `image::Rgba<u8>`. -/
structure Rgba where
  r : Nat
  g : Nat
  b : Nat
  a : Nat
deriving DecidableEq, Repr

/-- The RGB part of a color (the gradient interpolation forces alpha). -/
def Rgba.rgb (c : Rgba) : Nat × Nat × Nat := (c.r, c.g, c.b)

/-- An RGBA image: dimensions plus a total pixel map, modelling `RgbaImage`. -/
structure Image where
  width : Nat
  height : Nat
  pix : Nat → Nat → Rgba

/-- `ImageBuffer::from_pixel w h c`: a canvas filled with one color. -/
def Image.fill (w h : Nat) (c : Rgba) : Image :=
  ⟨w, h, fun _ _ => c⟩

/-- `img.put_pixel x y c`: point update of the pixel map. -/
def putPixel (img : Image) (x y : Nat) (c : Rgba) : Image :=
  { img with pix := fun i j => if i = x ∧ j = y then c else img.pix i j }

/-- ASCII model of `str::to_lowercase` (the program only compares against
ASCII literals such as `"circle"` or `"transparent"`). -/
def strLower (s : String) : String :=
  String.mk (s.data.map Char.toLower)

/-- ASCII whitespace test backing the model of `str::trim`. -/
def isWs (c : Char) : Bool :=
  c = ' ' || c = '\t' || c = '\n' || c = '\r'

/-- Model of `str::trim`: drop leading and trailing whitespace. -/
def strTrim (s : String) : String :=
  String.mk (((s.data.dropWhile isWs).reverse.dropWhile isWs).reverse)

/-- Splitting a character list at every `','`, as Rust `str::split(',')`
does: `"a,"` gives `["a", ""]`, the empty string gives `[""]`. -/
def splitCommaAux : List Char → List (List Char)
  | [] => [[]]
  | ',' :: t => [] :: splitCommaAux t
  | c :: t =>
    match splitCommaAux t with
    | [] => [[c]]
    | h :: r => (c :: h) :: r

/-- Model of `gradient.split(',').collect::<Vec<_>>()`. -/
def splitOnComma (s : String) : List String :=
  (splitCommaAux s.data).map String.mk

/-- Body-module glyph selector (`styles.rs`, `enum DotStyle`). -/
inductive DotStyle where
  | Square
  | Circle
  | Rounded
deriving DecidableEq, Repr

/-- Finder-pattern glyph selector (`styles.rs`, `enum EyeStyle`). -/
inductive EyeStyle where
  | Square
  | Circle
  | Frame
deriving DecidableEq, Repr

/-- `DotStyle::from_str`: case-insensitive, any unrecognized name maps to
`Square` (`styles.rs` lines 16-24). -/
def DotStyle.from_str (s : String) : DotStyle :=
  match strLower s with
  | "circle" => DotStyle.Circle
  | "rounded" => DotStyle.Rounded
  | _ => DotStyle.Square

/-- `EyeStyle::from_str`: case-insensitive, any unrecognized name maps to
`Square` (`styles.rs` lines 26-34). -/
def EyeStyle.from_str (s : String) : EyeStyle :=
  match strLower s with
  | "circle" => EyeStyle.Circle
  | "frame" => EyeStyle.Frame
  | _ => EyeStyle.Square

/-- One iteration of the inner `for dx in 0..scale` pixel loop shared by
every glyph rasterizer in `styles.rs`: bounds check (`px < img.width() &&
py < img.height()`), then the style's own geometric test `hit dx dy`, then
`put_pixel`.  For `draw_square` the geometric test is constantly true. -/
def drawStep (x y : Nat) (color : Rgba) (hit : Nat → Nat → Bool) (dy : Nat)
    (im : Image) (dx : Nat) : Image :=
  let px := x + dx
  let py := y + dy
  if px < im.width ∧ py < im.height then
    if hit dx dy then putPixel im px py color else im
  else im

/-- The nested `for dy in 0..scale { for dx in 0..scale { … } }` loop
shared by `draw_square`, `draw_circle`, `draw_rounded_square` and
`draw_frame`, abstracted over the per-style geometric test. -/
def drawLoop (img : Image) (x y scale : Nat) (color : Rgba)
    (hit : Nat → Nat → Bool) : Image :=
  (List.range scale).foldl
    (fun im dy => (List.range scale).foldl (drawStep x y color hit dy) im)
    img

/-- `draw_square` (`styles.rs` lines 66-76): fill the whole cell. -/
def draw_square (img : Image) (x y scale : Nat) (color : Rgba) : Image :=
  drawLoop img x y scale color (fun _ _ => true)

/-- The geometric test of `draw_circle`: the f32 test
`dist ≤ radius` with `dist = sqrt ((px − cx)² + (py − cy)²)`,
`cx = x + scale/2`, `cy = y + scale/2`, `radius = scale/2`, written on
squares and scaled by 4 to stay in integers:
`(2·dx − scale)² + (2·dy − scale)² ≤ scale²`. -/
def circleHit (scale dx dy : Nat) : Bool :=
  decide ((2 * (dx : Int) - scale) ^ 2 + (2 * (dy : Int) - scale) ^ 2 ≤ (scale : Int) ^ 2)

/-- `draw_circle` (`styles.rs` lines 78-96). -/
def draw_circle (img : Image) (x y scale : Nat) (color : Rgba) : Image :=
  drawLoop img x y scale color (fun dx dy => circleHit scale dx dy)

/-- `is_in_rounded_corner` (`styles.rs` lines 133-163): true off the four
corner regions, and inside a corner region true within `radius` of that
corner's inset center (distance compared on squares). -/
def is_in_rounded_corner (dx dy scale : Nat) (radius : ℚ) : Bool :=
  let dxf : ℚ := dx
  let dyf : ℚ := dy
  let sf : ℚ := scale
  let inCornerRegion : Bool :=
    (decide (dxf < radius) && decide (dyf < radius)) ||
    (decide (dxf > sf - radius) && decide (dyf < radius)) ||
    (decide (dxf < radius) && decide (dyf > sf - radius)) ||
    (decide (dxf > sf - radius) && decide (dyf > sf - radius))
  if !inCornerRegion then true
  else
    decide ((dxf - radius) ^ 2 + (dyf - radius) ^ 2 ≤ radius ^ 2) ||
    decide ((dxf - (sf - radius)) ^ 2 + (dyf - radius) ^ 2 ≤ radius ^ 2) ||
    decide ((dxf - radius) ^ 2 + (dyf - (sf - radius)) ^ 2 ≤ radius ^ 2) ||
    decide ((dxf - (sf - radius)) ^ 2 + (dyf - (sf - radius)) ^ 2 ≤ radius ^ 2)

/-- `draw_rounded_square` (`styles.rs` lines 98-114), with
`corner_radius = scale · 0.3`. -/
def draw_rounded_square (img : Image) (x y scale : Nat) (color : Rgba) : Image :=
  drawLoop img x y scale color
    (fun dx dy => is_in_rounded_corner dx dy scale ((scale : ℚ) * (3 / 10)))

/-- `draw_frame` (`styles.rs` lines 116-131): ring of thickness
`max(1, ⌊scale · 0.2⌋) = max 1 (scale / 5)`. -/
def draw_frame (img : Image) (x y scale : Nat) (color : Rgba) : Image :=
  let thickness := max 1 (scale / 5)
  drawLoop img x y scale color
    (fun dx dy =>
      decide (dx < thickness) || decide (scale - thickness ≤ dx) ||
      decide (dy < thickness) || decide (scale - thickness ≤ dy))

/-- `apply_dot_style` (`styles.rs` lines 36-49). -/
def apply_dot_style (img : Image) (x y scale : Nat) (color : Rgba)
    (style : DotStyle) : Image :=
  match style with
  | DotStyle.Square => draw_square img x y scale color
  | DotStyle.Circle => draw_circle img x y scale color
  | DotStyle.Rounded => draw_rounded_square img x y scale color

/-- `apply_eye_style` (`styles.rs` lines 51-64). -/
def apply_eye_style (img : Image) (x y scale : Nat) (color : Rgba)
    (style : EyeStyle) : Image :=
  match style with
  | EyeStyle.Square => draw_square img x y scale color
  | EyeStyle.Circle => draw_circle img x y scale color
  | EyeStyle.Frame => draw_frame img x y scale color

/-- Rust `f32 as u8`: truncate toward zero and saturate into `0..=255`
(negative values give 0, which `⌊·⌋₊` also does). -/
def castU8 (q : ℚ) : Nat :=
  min 255 ⌊q⌋₊

/-- Rust `f32 as u32` for the nonnegative values reachable here:
truncate toward zero (negative values give 0). -/
def natTrunc (q : ℚ) : Nat :=
  ⌊q⌋₊

/-- One channel of `interpolate_gradient` before the `as u8` cast:
`c1 + (c2 − c1) · t` (`main.rs` lines 355-357). -/
def gradChannel (c1 c2 : Nat) (t : ℚ) : ℚ :=
  (c1 : ℚ) + ((c2 : ℚ) - (c1 : ℚ)) * t

/-- `interpolate_gradient` (`main.rs` lines 352-360): component-wise
interpolation of the RGB channels, alpha hard-coded to 255. -/
def interpolate_gradient (colors : Rgba × Rgba) (t : ℚ) : Rgba :=
  let (c1, c2) := colors
  ⟨castU8 (gradChannel c1.r c2.r t),
   castU8 (gradChannel c1.g c2.g t),
   castU8 (gradChannel c1.b c2.b t),
   255⟩

/-- Value of a hexadecimal digit character, or `none`. -/
def hexVal (c : Char) : Option Nat :=
  if '0' ≤ c ∧ c ≤ '9' then some (c.toNat - '0'.toNat)
  else if 'a' ≤ c ∧ c ≤ 'f' then some (c.toNat - 'a'.toNat + 10)
  else if 'A' ≤ c ∧ c ≤ 'F' then some (c.toNat - 'A'.toNat + 10)
  else none

/-- Two hexadecimal digits as one byte value. -/
def hexPair (a b : Char) : Option Nat := do
  let x ← hexVal a
  let y ← hexVal b
  pure (16 * x + y)

/-- Modelled from the spec: the CSS color parser is the external
`csscolorparser` crate, whose code is not part of this repository.  The
spec describes it as parsing hex `#rgb` / `#rrggbb` / `#rrggbbaa` (and
named / `rgb(…)` / `hsl(…)` literals, which this model omits) into four
float channels in `[0, 1]`; a short hex digit is duplicated (`#f` ↦
`0xff = 17·15`).  Returns `none` on anything it does not recognize. -/
def cssParse (s : String) : Option (ℚ × ℚ × ℚ × ℚ) :=
  match s.data with
  | ['#', a, b, c] => do
    let r ← hexVal a
    let g ← hexVal b
    let bl ← hexVal c
    pure (((17 * r : Nat) : ℚ) / 255, ((17 * g : Nat) : ℚ) / 255, ((17 * bl : Nat) : ℚ) / 255, 1)
  | ['#', a, b, c, d, e, f] => do
    let r ← hexPair a b
    let g ← hexPair c d
    let bl ← hexPair e f
    pure (((r : Nat) : ℚ) / 255, ((g : Nat) : ℚ) / 255, ((bl : Nat) : ℚ) / 255, 1)
  | ['#', a, b, c, d, e, f, g2, h] => do
    let r ← hexPair a b
    let g ← hexPair c d
    let bl ← hexPair e f
    let al ← hexPair g2 h
    pure (((r : Nat) : ℚ) / 255, ((g : Nat) : ℚ) / 255, ((bl : Nat) : ℚ) / 255,
      ((al : Nat) : ℚ) / 255)
  | _ => none

/-- The four `(channel * 255.0) as u8` casts shared by `parse_color`
(`main.rs` lines 344-349) and `parse_color_from_hex` (`styles.rs` lines
180-185). -/
def colorToRgba (c : ℚ × ℚ × ℚ × ℚ) : Rgba :=
  ⟨castU8 (c.1 * 255), castU8 (c.2.1 * 255), castU8 (c.2.2.1 * 255), castU8 (c.2.2.2 * 255)⟩

/-- `parse_color` (`main.rs` lines 337-350): case-insensitive
`"transparent"` short-circuits to `(0,0,0,0)`, everything else goes to
the CSS parser and is scaled to bytes. -/
def parse_color (s : String) : Except String Rgba :=
  if strLower s = "transparent" then Except.ok ⟨0, 0, 0, 0⟩
  else
    match cssParse s with
    | some c => Except.ok (colorToRgba c)
    | none => Except.error "Invalid color format"

/-- `parse_color_from_hex` (`styles.rs` lines 177-186): like
`parse_color` but without the `"transparent"` special case. -/
def parse_color_from_hex (s : String) : Except String Rgba :=
  match cssParse s with
  | some c => Except.ok (colorToRgba c)
  | none => Except.error "Invalid color format"

/-- `parse_gradient` (`styles.rs` lines 165-175): split on commas,
require exactly two fields, trim and parse each. -/
def parse_gradient (g : String) : Except String (Rgba × Rgba) :=
  match splitOnComma g with
  | [p1, p2] =>
    match parse_color_from_hex (strTrim p1) with
    | Except.error e => Except.error e
    | Except.ok c1 =>
      match parse_color_from_hex (strTrim p2) with
      | Except.error e => Except.error e
      | Except.ok c2 => Except.ok (c1, c2)
  | _ => Except.error "Gradient must have exactly 2 colors"

/-- The format whitelist of `validate_format` (`main.rs` line 526). -/
def validFormats : List String :=
  ["png", "jpg", "jpeg", "svg", "webp", "tiff", "tif", "ico", "bmp", "gif", "tga",
   "avif", "qoi"]

/-- `validate_format` (`main.rs` lines 525-535): whitelist check on the
lowercased format name; the error message names the failing input. -/
def validate_format (format : String) : Except String Unit :=
  if validFormats.contains (strLower format) then Except.ok ()
  else
    Except.error ("Unsupported format " ++ format ++ ". Valid formats: " ++
      String.intercalate ", " validFormats)

/-- The QR matrix as the renderer sees it: a module width and a
dark-module predicate (`qrcode::QrCode` with `qr[(x, y)] == Color::Dark`). -/
structure QrMatrix where
  width : Nat
  dark : Nat → Nat → Bool

/-- The fields of `Args` that the renderer reads. -/
structure Args where
  bg_color : String
  fg_color : String
  gradient : Option String
  dot_style : String
  eye_style : String
  size : Nat
  border : Nat

/-- Finder-pattern anchors `(0,0)`, `(w−7,0)`, `(0,w−7)`
(`main.rs` lines 296-300). -/
def eyePositions (w : Nat) : List (Nat × Nat) :=
  [(0, 0), (w - 7, 0), (0, w - 7)]

/-- `eye_positions.iter().any(|(ex, ey)| x >= ex && x < ex+7 && y >= ey
&& y < ey+7)` (`main.rs` lines 313-315). -/
def isInEye (w x y : Nat) : Bool :=
  (eyePositions w).any fun p =>
    decide (p.1 ≤ x ∧ x < p.1 + 7 ∧ p.2 ≤ y ∧ y < p.2 + 7)

/-- The module-drawing pass of `generate_qr_image` (`main.rs` lines
302-327): row-major walk over the matrix; every dark module gets its
color (gradient at `t = x / N`, else `fg`) and is dispatched to the eye
or dot rasterizer at cell origin `((x+border)·scale, (y+border)·scale)`,
with `scale = size / (N + 2·border)` (integer division, line 275). -/
def drawModules (qr : QrMatrix) (args : Args) (fg : Rgba)
    (grad : Option (Rgba × Rgba)) (img : Image) : Image :=
  let scale := args.size / (qr.width + 2 * args.border)
  let dot := DotStyle.from_str args.dot_style
  let eye := EyeStyle.from_str args.eye_style
  (List.range qr.width).foldl
    (fun im y =>
      (List.range qr.width).foldl
        (fun im x =>
          if qr.dark x y then
            let color :=
              match grad with
              | some gpair => interpolate_gradient gpair ((x : ℚ) / (qr.width : ℚ))
              | none => fg
            if isInEye qr.width x y then
              apply_eye_style im ((x + args.border) * scale) ((y + args.border) * scale)
                scale color eye
            else
              apply_dot_style im ((x + args.border) * scale) ((y + args.border) * scale)
                scale color dot
          else im)
        im)
    img

/-- `generate_qr_image` up to the optional logo overlay (`main.rs` lines
272-334): parse the colors and the optional gradient, fill a
`size × size` canvas with the background color, then run the module
pass.  The logo overlay is modelled separately by `add_logo_dims`. -/
def generate_qr_image (qr : QrMatrix) (args : Args) : Except String Image :=
  match parse_color args.bg_color with
  | Except.error e => Except.error e
  | Except.ok bg =>
    match parse_color args.fg_color with
    | Except.error e => Except.error e
    | Except.ok fg =>
      match (match args.gradient with
             | some g => Except.map some (parse_gradient g)
             | none => Except.ok none) with
      | Except.error e => Except.error e
      | Except.ok grad =>
        Except.ok (drawModules qr args fg grad (Image.fill args.size args.size bg))

/-- The geometry of `add_logo` (`main.rs` lines 362-398): clamp the
ratio to `[0.1, 0.4]`, compute `max_logo_size = (S · ratio) as u32`,
fit the longer logo side to it (the source branches on `W > H`), and
center.  Returns `((new_W, new_H), (offset_x, offset_y))`; the resize
and alpha-blend of pixel data are outside the claims. -/
def add_logo_dims (W H S : Nat) (r : ℚ) : (Nat × Nat) × (Nat × Nat) :=
  let ratio := max (1 / 10 : ℚ) (min (2 / 5 : ℚ) r)
  let maxSide := natTrunc ((S : ℚ) * ratio)
  let wh :=
    if H < W then
      (maxSide, natTrunc ((H : ℚ) * ((maxSide : ℚ) / (W : ℚ))))
    else
      (natTrunc ((W : ℚ) * ((maxSide : ℚ) / (H : ℚ))), maxSide)
  (wh, ((S - wh.1) / 2, (S - wh.2) / 2))

/-- The same geometry as the spec words it: clamp to `[0.1, 0.4]`,
`max_side = ⌊S · r⌋`; if `W ≥ H` then `new_W = max_side`,
`new_H = ⌊H · max_side / W⌋`, else `new_H = max_side`,
`new_W = ⌊W · max_side / H⌋`; offsets `((S − new_W)/2, (S − new_H)/2)`
with integer division. -/
def add_logo_dims_from_spec (W H S : Nat) (r : ℚ) : (Nat × Nat) × (Nat × Nat) :=
  let ratio := max (1 / 10 : ℚ) (min (2 / 5 : ℚ) r)
  let maxSide := natTrunc ((S : ℚ) * ratio)
  let wh :=
    if H ≤ W then (maxSide, H * maxSide / W)
    else (W * maxSide / H, maxSide)
  (wh, ((S - wh.1) / 2, (S - wh.2) / 2))

/-- The XML declaration and `<svg>` open tag of `save_as_svg`
(`main.rs` lines 437-442), with the `viewBox` square side and the
`width`/`height` attribute value as parameters. -/
def svgHeader (svgSize sizePx : Nat) : String :=
  "<?xml version=\"1.0\" encoding=\"UTF-8\"?>\n<svg xmlns=\"http://www.w3.org/2000/svg\" version=\"1.1\" viewBox=\"0 0 " ++
    toString svgSize ++ " " ++ toString svgSize ++ "\" width=\"" ++ toString sizePx ++
    "\" height=\"" ++ toString sizePx ++ "\">\n"

/-- The background rectangle of `save_as_svg` (`main.rs` lines 445-451). -/
def bgRect (bgc : String) : String :=
  "  <rect width=\"100%\" height=\"100%\" fill=\"" ++ bgc ++ "\"/>\n"

/-- The optional `<defs>` gradient block of `save_as_svg` (`main.rs`
lines 453-469): emitted only when the raw gradient string splits into
exactly two comma-separated parts. -/
def gradientDefs : Option String → String
  | none => ""
  | some gs =>
    match splitOnComma gs with
    | [p1, p2] =>
      "  <defs>\n    <linearGradient id=\"qrGradient\" x1=\"0%\" y1=\"0%\" x2=\"100%\" y2=\"0%\">\n      <stop offset=\"0%\" style=\"stop-color:" ++
        strTrim p1 ++ ";stop-opacity:1\" />\n      <stop offset=\"100%\" style=\"stop-color:" ++
        strTrim p2 ++ ";stop-opacity:1\" />\n    </linearGradient>\n  </defs>\n"
    | _ => ""

/-- The fill attribute of `save_as_svg` (`main.rs` lines 472-476). -/
def fillAttr (args : Args) : String :=
  match args.gradient with
  | some _ => "fill=\"url(#qrGradient)\""
  | none => "fill=\"" ++ args.fg_color ++ "\""

/-- One SVG shape per dark module (`main.rs` lines 484-510): selected by
`dot_style.to_lowercase()` alone, with `scale = 10` SVG units per
module and `px = (x + border)·scale`, `py = (y + border)·scale`. -/
def moduleShape (dotStyle : String) (border : Nat) (fill : String) (x y : Nat) : String :=
  let scale := 10
  let px := (x + border) * scale
  let py := (y + border) * scale
  match strLower dotStyle with
  | "circle" =>
    "  <circle cx=\"" ++ toString (px + scale / 2) ++ "\" cy=\"" ++
      toString (py + scale / 2) ++ "\" r=\"" ++ toString (scale / 2) ++ "\" " ++
      fill ++ "/>\n"
  | "rounded" =>
    "  <rect x=\"" ++ toString px ++ "\" y=\"" ++ toString py ++ "\" width=\"" ++
      toString scale ++ "\" height=\"" ++ toString scale ++ "\" rx=\"" ++
      toString (scale / 3) ++ "\" " ++ fill ++ "/>\n"
  | _ =>
    "  <rect x=\"" ++ toString px ++ "\" y=\"" ++ toString py ++ "\" width=\"" ++
      toString scale ++ "\" height=\"" ++ toString scale ++ "\" " ++ fill ++ "/>\n"

/-- Everything `save_as_svg` pushes before the module loop: header,
optional background rectangle (skipped when the background string is
`"transparent"`, mapped to `"none"`), optional gradient defs. -/
def svgPrelude (qr : QrMatrix) (args : Args) : String :=
  let svgSize := (qr.width + 2 * args.border) * 10
  let bgc := if strLower args.bg_color = "transparent" then "none" else args.bg_color
  svgHeader svgSize args.size ++ (if bgc ≠ "none" then bgRect bgc else "") ++
    gradientDefs args.gradient

/-- `save_as_svg` (`main.rs` lines 418-523), as the string it writes:
the prelude, then the row-major module loop appending one shape per
dark module, then the closing tag.  `args.eye_style` is never read. -/
def save_as_svg (qr : QrMatrix) (args : Args) : String :=
  ((List.range qr.width).foldl
    (fun acc y =>
      (List.range qr.width).foldl
        (fun acc x =>
          if qr.dark x y then
            acc ++ moduleShape args.dot_style args.border (fillAttr args) x y
          else acc)
        acc)
    (svgPrelude qr args)) ++ "</svg>\n"

/-- The dark modules in row-major order. -/
def rowMajorDark (qr : QrMatrix) : List (Nat × Nat) :=
  (List.range qr.width).flatMap fun y =>
    ((List.range qr.width).filter fun x => qr.dark x y).map fun x => (x, y)

theorem putPixel_width (img : Image) (x y : Nat) (c : Rgba) :
    (putPixel img x y c).width = img.width := rfl

theorem putPixel_height (img : Image) (x y : Nat) (c : Rgba) :
    (putPixel img x y c).height = img.height := rfl

theorem putPixel_pix (img : Image) (x y : Nat) (c : Rgba) (u v : Nat) :
    (putPixel img x y c).pix u v = if u = x ∧ v = y then c else img.pix u v := rfl

theorem drawStep_width (x y : Nat) (c : Rgba) (hit : Nat → Nat → Bool)
    (dy : Nat) (im : Image) (dx : Nat) :
    (drawStep x y c hit dy im dx).width = im.width := by
  simp only [drawStep]
  split_ifs <;> rfl

theorem drawStep_height (x y : Nat) (c : Rgba) (hit : Nat → Nat → Bool)
    (dy : Nat) (im : Image) (dx : Nat) :
    (drawStep x y c hit dy im dx).height = im.height := by
  simp only [drawStep]
  split_ifs <;> rfl

theorem drawStep_pix (x y : Nat) (c : Rgba) (hit : Nat → Nat → Bool)
    (dy : Nat) (im : Image) (dx : Nat) (u v : Nat) :
    (drawStep x y c hit dy im dx).pix u v =
      if u = x + dx ∧ v = y + dy ∧ u < im.width ∧ v < im.height ∧ hit dx dy = true
      then c else im.pix u v := by
  unfold drawStep
  by_cases hb : x + dx < im.width ∧ y + dy < im.height
  · rw [if_pos hb]
    by_cases hh : hit dx dy = true
    · rw [if_pos hh, putPixel_pix]
      by_cases ht : u = x + dx ∧ v = y + dy
      · rw [if_pos ht, if_pos ⟨ht.1, ht.2, ht.1 ▸ hb.1, ht.2 ▸ hb.2, hh⟩]
      · rw [if_neg ht, if_neg (by tauto)]
    · rw [if_neg hh, if_neg (by tauto)]
  · rw [if_neg hb, if_neg (by rintro ⟨h1, h2, h3, h4, h5⟩; exact hb ⟨h1 ▸ h3, h2 ▸ h4⟩)]

theorem foldRow_width (x y : Nat) (c : Rgba) (hit : Nat → Nat → Bool)
    (dy : Nat) (l : List Nat) (im : Image) :
    (l.foldl (drawStep x y c hit dy) im).width = im.width := by
  induction l generalizing im with
  | nil => rfl
  | cons a t ih => rw [List.foldl_cons, ih, drawStep_width]

theorem foldRow_height (x y : Nat) (c : Rgba) (hit : Nat → Nat → Bool)
    (dy : Nat) (l : List Nat) (im : Image) :
    (l.foldl (drawStep x y c hit dy) im).height = im.height := by
  induction l generalizing im with
  | nil => rfl
  | cons a t ih => rw [List.foldl_cons, ih, drawStep_height]

theorem foldRow_pix (x y : Nat) (c : Rgba) (hit : Nat → Nat → Bool)
    (dy : Nat) (u v : Nat) (l : List Nat) (im : Image) :
    (l.foldl (drawStep x y c hit dy) im).pix u v =
      if v = y + dy ∧ x ≤ u ∧ u - x ∈ l ∧ u < im.width ∧ v < im.height ∧ hit (u - x) dy = true
      then c else im.pix u v := by
  induction l generalizing im with
  | nil => simp
  | cons a t ih =>
    rw [List.foldl_cons, ih, drawStep_width, drawStep_height, drawStep_pix]
    by_cases hmt : v = y + dy ∧ x ≤ u ∧ u - x ∈ t ∧ u < im.width ∧ v < im.height ∧ hit (u - x) dy = true
    · rw [if_pos hmt, if_pos ⟨hmt.1, hmt.2.1, List.mem_cons_of_mem a hmt.2.2.1, hmt.2.2.2⟩]
    · rw [if_neg hmt]
      by_cases hstep : u = x + a ∧ v = y + dy ∧ u < im.width ∧ v < im.height ∧ hit a dy = true
      · have hxu : x ≤ u := hstep.1 ▸ Nat.le_add_right x a
        have hux : u - x = a := by omega
        rw [if_pos hstep, if_pos ⟨hstep.2.1, hxu, hux ▸ List.mem_cons_self a t, hstep.2.2.1,
          hstep.2.2.2.1, hux ▸ hstep.2.2.2.2⟩]
      · rw [if_neg hstep, if_neg]
        intro hcons
        rcases hcons with ⟨h1, h2, h3, h4, h5, h6⟩
        rcases List.mem_cons.mp h3 with he | hm
        · exact hstep ⟨by omega, h1, h4, h5, he ▸ h6⟩
        · exact hmt ⟨h1, h2, hm, h4, h5, h6⟩

theorem foldRows_width (x y s : Nat) (c : Rgba) (hit : Nat → Nat → Bool)
    (m : List Nat) (im : Image) :
    (m.foldl (fun im2 dy => (List.range s).foldl (drawStep x y c hit dy) im2) im).width =
      im.width := by
  induction m generalizing im with
  | nil => rfl
  | cons a t ih => rw [List.foldl_cons, ih, foldRow_width]

theorem foldRows_height (x y s : Nat) (c : Rgba) (hit : Nat → Nat → Bool)
    (m : List Nat) (im : Image) :
    (m.foldl (fun im2 dy => (List.range s).foldl (drawStep x y c hit dy) im2) im).height =
      im.height := by
  induction m generalizing im with
  | nil => rfl
  | cons a t ih => rw [List.foldl_cons, ih, foldRow_height]

theorem drawLoop_width (img : Image) (x y s : Nat) (c : Rgba)
    (hit : Nat → Nat → Bool) : (drawLoop img x y s c hit).width = img.width := by
  unfold drawLoop
  exact foldRows_width x y s c hit (List.range s) img

theorem drawLoop_height (img : Image) (x y s : Nat) (c : Rgba)
    (hit : Nat → Nat → Bool) : (drawLoop img x y s c hit).height = img.height := by
  unfold drawLoop
  exact foldRows_height x y s c hit (List.range s) img

theorem foldRows_pix (x y s : Nat) (c : Rgba) (hit : Nat → Nat → Bool)
    (u v : Nat) (m : List Nat) (im : Image) :
    (m.foldl (fun im2 dy => (List.range s).foldl (drawStep x y c hit dy) im2) im).pix u v =
      if y ≤ v ∧ v - y ∈ m ∧ x ≤ u ∧ u - x ∈ List.range s ∧ u < im.width ∧ v < im.height ∧
          hit (u - x) (v - y) = true
      then c else im.pix u v := by
  induction m generalizing im with
  | nil => simp
  | cons a t ih =>
    rw [List.foldl_cons, ih, foldRow_width, foldRow_height, foldRow_pix]
    by_cases hmt : y ≤ v ∧ v - y ∈ t ∧ x ≤ u ∧ u - x ∈ List.range s ∧ u < im.width ∧
        v < im.height ∧ hit (u - x) (v - y) = true
    · rw [if_pos hmt, if_pos ⟨hmt.1, List.mem_cons_of_mem a hmt.2.1, hmt.2.2⟩]
    · rw [if_neg hmt]
      by_cases hstep : v = y + a ∧ x ≤ u ∧ u - x ∈ List.range s ∧ u < im.width ∧
          v < im.height ∧ hit (u - x) a = true
      · have hyv : y ≤ v := hstep.1 ▸ Nat.le_add_right y a
        have hvy : v - y = a := by omega
        rw [if_pos hstep, if_pos ⟨hyv, hvy ▸ List.mem_cons_self a t, hstep.2.1, hstep.2.2.1,
          hstep.2.2.2.1, hstep.2.2.2.2.1, hvy ▸ hstep.2.2.2.2.2⟩]
      · rw [if_neg hstep, if_neg]
        intro hcons
        rcases hcons with ⟨h1, h2, h3, h4, h5, h6, h7⟩
        rcases List.mem_cons.mp h2 with he | hm
        · exact hstep ⟨by omega, h3, h4, h5, h6, he ▸ h7⟩
        · exact hmt ⟨h1, hm, h3, h4, h5, h6, h7⟩

/-- Pointwise characterization of the shared rasterizer loop: pixel
`(u, v)` receives `c` exactly when it lies in the `scale × scale` cell at
`(x, y)`, inside the canvas, and the style's geometric test accepts its
cell-local coordinates; every other pixel is untouched. -/
theorem drawLoop_pix (img : Image) (x y s : Nat) (c : Rgba)
    (hit : Nat → Nat → Bool) (u v : Nat) :
    (drawLoop img x y s c hit).pix u v =
      if x ≤ u ∧ u < x + s ∧ y ≤ v ∧ v < y + s ∧ u < img.width ∧ v < img.height ∧
          hit (u - x) (v - y) = true
      then c else img.pix u v := by
  unfold drawLoop
  rw [foldRows_pix]
  refine if_congr ?_ rfl rfl
  constructor
  · rintro ⟨h1, h2, h3, h4, h5, h6, h7⟩
    have := List.mem_range.mp h2
    have := List.mem_range.mp h4
    exact ⟨h3, by omega, h1, by omega, h5, h6, h7⟩
  · rintro ⟨h1, h2, h3, h4, h5, h6, h7⟩
    exact ⟨h3, List.mem_range.mpr (by omega), h1, List.mem_range.mpr (by omega), h5, h6, h7⟩

/-- C1: the Circle glyph rasterizer fills exactly those pixels of the
`scale × scale` cell at `(x, y)` whose Euclidean distance from the cell
center `(x + scale/2, y + scale/2)` is at most `scale/2`, and writes no
other pixel.  The distance test is stated on squares scaled by 4, which
is exactly the source's f32 test `sqrt(…) ≤ scale/2`. -/
theorem draw_circle_pixels (img : Image) (x y s : Nat) (c : Rgba) (u v : Nat)
    (hu : u < img.width) (hv : v < img.height) :
    (draw_circle img x y s c).pix u v =
      if x ≤ u ∧ u < x + s ∧ y ≤ v ∧ v < y + s ∧
          (2 * (u : Int) - (2 * x + s)) ^ 2 + (2 * (v : Int) - (2 * y + s)) ^ 2 ≤ (s : Int) ^ 2
      then c else img.pix u v := by
  unfold draw_circle
  rw [drawLoop_pix]
  refine if_congr ?_ rfl rfl
  unfold circleHit
  constructor
  · rintro ⟨h1, h2, h3, h4, _, _, h7⟩
    refine ⟨h1, h2, h3, h4, ?_⟩
    have h7' := of_decide_eq_true h7
    rw [Nat.cast_sub h1, Nat.cast_sub h3] at h7'
    have e1 : 2 * ((u : Int) - x) - s = 2 * (u : Int) - (2 * x + s) := by ring
    have e2 : 2 * ((v : Int) - y) - s = 2 * (v : Int) - (2 * y + s) := by ring
    rwa [e1, e2] at h7'
  · rintro ⟨h1, h2, h3, h4, h5⟩
    refine ⟨h1, h2, h3, h4, hu, hv, ?_⟩
    apply decide_eq_true
    rw [Nat.cast_sub h1, Nat.cast_sub h3]
    have e1 : 2 * ((u : Int) - x) - s = 2 * (u : Int) - (2 * x + s) := by ring
    have e2 : 2 * ((v : Int) - y) - s = 2 * (v : Int) - (2 * y + s) := by ring
    rw [e1, e2]
    exact h5

theorem draw_circle_pixels_witness :
    (draw_circle (Image.fill 5 5 ⟨9, 9, 9, 9⟩) 0 0 4 ⟨1, 1, 1, 255⟩).pix 1 1 = ⟨1, 1, 1, 255⟩ := by
  rw [draw_circle_pixels (Image.fill 5 5 ⟨9, 9, 9, 9⟩) 0 0 4 ⟨1, 1, 1, 255⟩ 1 1
    (by decide) (by decide)]
  decide

/-- C9: every glyph rasterizer (square, circle, rounded, frame), for
every cell origin, scale (including `scale = 0`) and color, preserves the
canvas dimensions and leaves every out-of-bounds pixel untouched:
out-of-bounds writes are silently discarded by the bounds check of the
shared pixel loop. -/
theorem rasterizers_clip (img : Image) (x y s : Nat) (c : Rgba) (d : DotStyle)
    (e : EyeStyle) (u v : Nat) :
    (apply_dot_style img x y s c d).width = img.width ∧
    (apply_dot_style img x y s c d).height = img.height ∧
    (apply_eye_style img x y s c e).width = img.width ∧
    (apply_eye_style img x y s c e).height = img.height ∧
    (img.width ≤ u ∨ img.height ≤ v →
      (apply_dot_style img x y s c d).pix u v = img.pix u v ∧
      (apply_eye_style img x y s c e).pix u v = img.pix u v) := by
  have key : ∀ hit : Nat → Nat → Bool,
      (drawLoop img x y s c hit).width = img.width ∧
      (drawLoop img x y s c hit).height = img.height ∧
      (img.width ≤ u ∨ img.height ≤ v → (drawLoop img x y s c hit).pix u v = img.pix u v) := by
    intro hit
    refine ⟨drawLoop_width img x y s c hit, drawLoop_height img x y s c hit, ?_⟩
    intro h
    rw [drawLoop_pix, if_neg]
    rintro ⟨_, _, _, _, h5, h6, _⟩
    omega
  cases d <;> cases e <;>
    simp only [apply_dot_style, apply_eye_style, draw_square, draw_circle,
      draw_rounded_square, draw_frame] <;>
    exact ⟨(key _).1, (key _).2.1, (key _).1, (key _).2.1,
      fun h => ⟨(key _).2.2 h, (key _).2.2 h⟩⟩

theorem rasterizers_clip_witness :
    (apply_dot_style (Image.fill 2 2 ⟨3, 3, 3, 3⟩) 1 1 0 ⟨8, 8, 8, 8⟩ DotStyle.Square).pix 5 0 =
      ⟨3, 3, 3, 3⟩ ∧
    (apply_eye_style (Image.fill 2 2 ⟨3, 3, 3, 3⟩) 1 1 0 ⟨8, 8, 8, 8⟩ EyeStyle.Frame).pix 5 0 =
      ⟨3, 3, 3, 3⟩ :=
  (rasterizers_clip (Image.fill 2 2 ⟨3, 3, 3, 3⟩) 1 1 0 ⟨8, 8, 8, 8⟩ DotStyle.Square
    EyeStyle.Frame 5 0).2.2.2.2 (Or.inl (by decide))

/-- A byte-valued channel scaled to `[0,1]` and back by `· * 255` with a
truncating cast is the identity: the source's hex colors survive the
float round trip exactly. -/
theorem castU8_byte_roundtrip (n : Nat) (h : n ≤ 255) :
    castU8 ((n : ℚ) / 255 * 255) = n := by
  unfold castU8
  have h255 : ((255 : ℚ)) ≠ 0 := by norm_num
  rw [div_mul_cancel₀ _ h255, Nat.floor_natCast]
  omega

theorem castU8_one_scale : castU8 ((1 : ℚ) * 255) = 255 := by
  unfold castU8
  norm_num

/-- C3: gradient interpolation is component-wise linear on RGB — the
pre-cast channel value is an affine function of `t` — with the alpha
channel forced to 255 whatever the input alphas, and it is
endpoint-exact: at `t = 0` the RGB equals `c0`'s, at `t = 1` it equals
`c1`'s. -/
theorem interpolate_gradient_spec (c0 c1 : Rgba) (t s u α : ℚ) (a b : Nat) :
    (interpolate_gradient (c0, c1) t).a = 255
    ∧ gradChannel a b (α * s + (1 - α) * u) =
        α * gradChannel a b s + (1 - α) * gradChannel a b u
    ∧ (c0.r ≤ 255 → c0.g ≤ 255 → c0.b ≤ 255 →
        (interpolate_gradient (c0, c1) 0).rgb = c0.rgb)
    ∧ (c1.r ≤ 255 → c1.g ≤ 255 → c1.b ≤ 255 →
        (interpolate_gradient (c0, c1) 1).rgb = c1.rgb) := by
  have key0 : ∀ x y : Nat, x ≤ 255 → castU8 (gradChannel x y 0) = x := by
    intro x y hx
    have hg : gradChannel x y 0 = (x : ℚ) := by unfold gradChannel; ring
    rw [hg]
    unfold castU8
    rw [Nat.floor_natCast]
    omega
  have key1 : ∀ x y : Nat, y ≤ 255 → castU8 (gradChannel x y 1) = y := by
    intro x y hy
    have hg : gradChannel x y 1 = (y : ℚ) := by unfold gradChannel; ring
    rw [hg]
    unfold castU8
    rw [Nat.floor_natCast]
    omega
  refine ⟨rfl, by unfold gradChannel; ring, ?_, ?_⟩
  · intro h1 h2 h3
    show (castU8 (gradChannel c0.r c1.r 0), castU8 (gradChannel c0.g c1.g 0),
      castU8 (gradChannel c0.b c1.b 0)) = (c0.r, c0.g, c0.b)
    rw [key0 _ _ h1, key0 _ _ h2, key0 _ _ h3]
  · intro h1 h2 h3
    show (castU8 (gradChannel c0.r c1.r 1), castU8 (gradChannel c0.g c1.g 1),
      castU8 (gradChannel c0.b c1.b 1)) = (c1.r, c1.g, c1.b)
    rw [key1 _ _ h1, key1 _ _ h2, key1 _ _ h3]

theorem interpolate_gradient_spec_witness :
    (interpolate_gradient (⟨10, 20, 30, 40⟩, ⟨50, 60, 70, 80⟩) 0).rgb = (10, 20, 30) :=
  (interpolate_gradient_spec ⟨10, 20, 30, 40⟩ ⟨50, 60, 70, 80⟩ 0 0 0 0 0 0).2.2.1
    (by decide) (by decide) (by decide)

/-- C4: `parse_color` maps `"transparent"` (case-insensitively) to
`(0,0,0,0)`; other inputs go through the CSS parser, whose `[0,1]` float
channels are scaled by 255 with truncation toward zero — in particular
`#000000 ↦ (0,0,0,255)` and `#ffffff ↦ (255,255,255,255)` — and an
unrecognized literal yields a parse error. -/
theorem parse_color_spec :
    (∀ s : String, strLower s = "transparent" → parse_color s = Except.ok ⟨0, 0, 0, 0⟩)
    ∧ parse_color "#000000" = Except.ok ⟨0, 0, 0, 255⟩
    ∧ parse_color "#ffffff" = Except.ok ⟨255, 255, 255, 255⟩
    ∧ parse_color "#12345z" = Except.error "Invalid color format"
    ∧ (∀ (s : String) (c : ℚ × ℚ × ℚ × ℚ), cssParse s = some c →
        strLower s ≠ "transparent" → parse_color s = Except.ok (colorToRgba c)) := by
  have h0 : castU8 (((0 : Nat) : ℚ) / 255 * 255) = 0 := castU8_byte_roundtrip 0 (by omega)
  have h255 : castU8 (((255 : Nat) : ℚ) / 255 * 255) = 255 :=
    castU8_byte_roundtrip 255 (by omega)
  refine ⟨?_, ?_, ?_, ?_, ?_⟩
  · intro s h
    unfold parse_color
    rw [if_pos h]
  · unfold parse_color
    rw [if_neg (by decide)]
    have hc : cssParse "#000000" =
        some (((0 : Nat) : ℚ) / 255, ((0 : Nat) : ℚ) / 255, ((0 : Nat) : ℚ) / 255, 1) := rfl
    rw [hc]
    show Except.ok (colorToRgba _) = _
    unfold colorToRgba
    simp only [h0, castU8_one_scale]
  · unfold parse_color
    rw [if_neg (by decide)]
    have hc : cssParse "#ffffff" =
        some (((255 : Nat) : ℚ) / 255, ((255 : Nat) : ℚ) / 255, ((255 : Nat) : ℚ) / 255, 1) := rfl
    rw [hc]
    show Except.ok (colorToRgba _) = _
    unfold colorToRgba
    simp only [h255, castU8_one_scale]
  · unfold parse_color
    rw [if_neg (by decide)]
    have hc : cssParse "#12345z" = none := rfl
    rw [hc]
  · intro s c hc hs
    unfold parse_color
    rw [if_neg hs, hc]

theorem parse_color_spec_witness :
    parse_color "TRANSPARENT" = Except.ok ⟨0, 0, 0, 0⟩ :=
  parse_color_spec.1 "TRANSPARENT" (by decide)

/-- C10: both style parsers are total: after case-insensitive
comparison, anything but `"circle"` / `"rounded"` is a `Square` dot and
anything but `"circle"` / `"frame"` is a `Square` eye — unrecognized
style names silently render as squares instead of erroring. -/
theorem style_from_str_total :
    (∀ s : String, strLower s ≠ "circle" → strLower s ≠ "rounded" →
      DotStyle.from_str s = DotStyle.Square)
    ∧ (∀ s : String, strLower s ≠ "circle" → strLower s ≠ "frame" →
      EyeStyle.from_str s = EyeStyle.Square)
    ∧ (∀ s : String, strLower s = "circle" →
      DotStyle.from_str s = DotStyle.Circle ∧ EyeStyle.from_str s = EyeStyle.Circle)
    ∧ (∀ s : String, strLower s = "rounded" → DotStyle.from_str s = DotStyle.Rounded)
    ∧ (∀ s : String, strLower s = "frame" → EyeStyle.from_str s = EyeStyle.Frame)
    ∧ EyeStyle.from_str "rounded" = EyeStyle.Square
    ∧ DotStyle.from_str "frame" = DotStyle.Square := by
  refine ⟨?_, ?_, ?_, ?_, ?_, by decide, by decide⟩
  · intro s h1 h2
    unfold DotStyle.from_str
    split
    · next h => exact absurd h h1
    · next h => exact absurd h h2
    · rfl
  · intro s h1 h2
    unfold EyeStyle.from_str
    split
    · next h => exact absurd h h1
    · next h => exact absurd h h2
    · rfl
  · intro s h
    constructor
    · unfold DotStyle.from_str
      split
      · rfl
      · next h2 => rw [h] at h2; exact absurd h2 (by decide)
      · next h2 _ => exact absurd h h2
    · unfold EyeStyle.from_str
      split
      · rfl
      · next h2 => rw [h] at h2; exact absurd h2 (by decide)
      · next h2 _ => exact absurd h h2
  · intro s h
    unfold DotStyle.from_str
    split
    · next h2 => rw [h] at h2; exact absurd h2 (by decide)
    · rfl
    · next _ h2 => exact absurd h h2
  · intro s h
    unfold EyeStyle.from_str
    split
    · next h2 => rw [h] at h2; exact absurd h2 (by decide)
    · rfl
    · next _ h2 => exact absurd h h2

theorem style_from_str_total_witness :
    DotStyle.from_str "hexagon" = DotStyle.Square :=
  style_from_str_total.1 "hexagon" (by decide) (by decide)

/-- C8: `validate_format` accepts exactly the whitelisted formats
(case-insensitively) and rejects everything else with an error naming
the failing input. -/
theorem validate_format_spec :
    (∀ f : String, validate_format f = Except.ok () ↔ strLower f ∈ validFormats)
    ∧ (∀ f : String, strLower f ∉ validFormats →
      validate_format f = Except.error ("Unsupported format " ++ f ++
        ". Valid formats: " ++ String.intercalate ", " validFormats)) := by
  constructor
  · intro f
    unfold validate_format
    by_cases hm : strLower f ∈ validFormats
    · rw [if_pos (by simpa [List.contains] using hm)]
      simp [hm]
    · rw [if_neg (by simpa [List.contains] using hm)]
      simp [hm]
  · intro f hm
    unfold validate_format
    rw [if_neg (by simpa [List.contains] using hm)]

theorem validate_format_spec_witness :
    validate_format "PNG" = Except.ok () ∧
    validate_format "pdf" = Except.error ("Unsupported format pdf. Valid formats: " ++
      String.intercalate ", " validFormats) :=
  ⟨(validate_format_spec.1 "PNG").mpr (by decide),
    validate_format_spec.2 "pdf" (by decide)⟩

/-- C7: `parse_gradient` succeeds exactly when the input splits on the
comma into two fields that each parse as a color literal after
trimming; any other number of fields yields the two-colors error. -/
theorem parse_gradient_spec :
    (∀ g p1 p2 : String, splitOnComma g = [p1, p2] →
      ((parse_gradient g).isOk = true ↔
        (cssParse (strTrim p1)).isSome = true ∧ (cssParse (strTrim p2)).isSome = true))
    ∧ (∀ g : String, (splitOnComma g).length ≠ 2 →
      parse_gradient g = Except.error "Gradient must have exactly 2 colors") := by
  constructor
  · intro g p1 p2 hsp
    unfold parse_gradient
    rw [hsp]
    unfold parse_color_from_hex
    cases h1 : cssParse (strTrim p1) <;> cases h2 : cssParse (strTrim p2) <;>
      simp [h1, h2, Except.isOk, Except.toBool]
  · intro g hlen
    unfold parse_gradient
    rcases hsp : splitOnComma g with _ | ⟨a, _ | ⟨b, _ | ⟨c, t⟩⟩⟩
    · rfl
    · rfl
    · rw [hsp] at hlen
      exact absurd rfl hlen
    · rfl

theorem parse_gradient_spec_witness :
    (parse_gradient "#fff,#000").isOk = true :=
  (parse_gradient_spec.1 "#fff,#000" "#fff" "#000" (by decide)).mpr
    ⟨by decide, by decide⟩

theorem foldl_pix_unchanged {α : Type} (u v : Nat) (l : List α)
    (f : Image → α → Image) (im : Image)
    (h : ∀ a ∈ l, ∀ im2 : Image, (f im2 a).pix u v = im2.pix u v) :
    (l.foldl f im).pix u v = im.pix u v := by
  induction l generalizing im with
  | nil => rfl
  | cons a t ih =>
    rw [List.foldl_cons, ih _ fun b hb im2 => h b (List.mem_cons_of_mem a hb) im2,
      h a (List.mem_cons_self a t)]

theorem apply_dot_style_pix_outside (im : Image) (x0 y0 s : Nat) (c : Rgba)
    (d : DotStyle) (u v : Nat)
    (h : ¬(x0 ≤ u ∧ u < x0 + s ∧ y0 ≤ v ∧ v < y0 + s)) :
    (apply_dot_style im x0 y0 s c d).pix u v = im.pix u v := by
  cases d <;>
    simp only [apply_dot_style, draw_square, draw_circle, draw_rounded_square] <;>
    (rw [drawLoop_pix, if_neg]; rintro ⟨h1, h2, h3, h4, -, -, -⟩; exact h ⟨h1, h2, h3, h4⟩)

theorem apply_eye_style_pix_outside (im : Image) (x0 y0 s : Nat) (c : Rgba)
    (e : EyeStyle) (u v : Nat)
    (h : ¬(x0 ≤ u ∧ u < x0 + s ∧ y0 ≤ v ∧ v < y0 + s)) :
    (apply_eye_style im x0 y0 s c e).pix u v = im.pix u v := by
  cases e <;>
    simp only [apply_eye_style, draw_square, draw_circle, draw_frame] <;>
    (rw [drawLoop_pix, if_neg]; rintro ⟨h1, h2, h3, h4, -, -, -⟩; exact h ⟨h1, h2, h3, h4⟩)

/-- C2: after the module pass (and before any logo overlay), every pixel
of the cell `[px, px+scale) × [py, py+scale)` of a light module `(x, y)`
— with `px = (x+border)·scale`, `py = (y+border)·scale` — still equals
the background color the canvas was initialised with. -/
theorem light_modules_keep_bg (qr : QrMatrix) (args : Args) (fg bg : Rgba)
    (grad : Option (Rgba × Rgba)) (s x y u v : Nat)
    (hs : s = args.size / (qr.width + 2 * args.border))
    (_hx : x < qr.width) (_hy : y < qr.width) (hlight : qr.dark x y = false)
    (hu1 : (x + args.border) * s ≤ u) (hu2 : u < (x + args.border) * s + s)
    (hv1 : (y + args.border) * s ≤ v) (hv2 : v < (y + args.border) * s + s) :
    (drawModules qr args fg grad (Image.fill args.size args.size bg)).pix u v = bg := by
  subst hs
  simp only [drawModules]
  rw [foldl_pix_unchanged]
  · rfl
  · intro y' hy' im2
    rw [foldl_pix_unchanged]
    intro x' hx' im3
    by_cases hd : qr.dark x' y' = true
    · rw [if_pos hd]
      have hne : ¬((x' + args.border) * (args.size / (qr.width + 2 * args.border)) ≤ u ∧
          u < (x' + args.border) * (args.size / (qr.width + 2 * args.border)) +
            args.size / (qr.width + 2 * args.border) ∧
          (y' + args.border) * (args.size / (qr.width + 2 * args.border)) ≤ v ∧
          v < (y' + args.border) * (args.size / (qr.width + 2 * args.border)) +
            args.size / (qr.width + 2 * args.border)) := by
        rintro ⟨a1, a2, a3, a4⟩
        have e1 : u / (args.size / (qr.width + 2 * args.border)) = x' + args.border :=
          Nat.div_eq_of_lt_le a1 (by rw [Nat.succ_mul]; exact a2)
        have e2 : u / (args.size / (qr.width + 2 * args.border)) = x + args.border :=
          Nat.div_eq_of_lt_le hu1 (by rw [Nat.succ_mul]; exact hu2)
        have e3 : v / (args.size / (qr.width + 2 * args.border)) = y' + args.border :=
          Nat.div_eq_of_lt_le a3 (by rw [Nat.succ_mul]; exact a4)
        have e4 : v / (args.size / (qr.width + 2 * args.border)) = y + args.border :=
          Nat.div_eq_of_lt_le hv1 (by rw [Nat.succ_mul]; exact hv2)
        have hxx : x' = x := by have := e1.symm.trans e2; omega
        have hyy : y' = y := by have := e3.symm.trans e4; omega
        rw [hxx, hyy, hlight] at hd
        exact Bool.false_ne_true hd
      by_cases he : isInEye qr.width x' y' = true
      · rw [if_pos he]
        exact apply_eye_style_pix_outside _ _ _ _ _ _ u v hne
      · rw [if_neg he]
        exact apply_dot_style_pix_outside _ _ _ _ _ _ u v hne
    · rw [if_neg hd]

theorem light_modules_keep_bg_witness :
    (drawModules ⟨8, fun a b => decide (a = 0 ∧ b = 0)⟩
      ⟨"transparent", "#000000", none, "square", "square", 8, 0⟩
      ⟨0, 0, 0, 255⟩ none (Image.fill 8 8 ⟨7, 7, 7, 7⟩)).pix 1 1 = ⟨7, 7, 7, 7⟩ :=
  light_modules_keep_bg ⟨8, fun a b => decide (a = 0 ∧ b = 0)⟩
    ⟨"transparent", "#000000", none, "square", "square", 8, 0⟩
    ⟨0, 0, 0, 255⟩ ⟨7, 7, 7, 7⟩ none 1 1 1 1 1 (by decide) (by decide) (by decide)
    (by decide) (by decide) (by decide) (by decide) (by decide)

theorem natTrunc_mul_div (A B M : Nat) :
    natTrunc ((A : ℚ) * ((M : ℚ) / (B : ℚ))) = A * M / B := by
  unfold natTrunc
  rw [← mul_div_assoc, ← Nat.cast_mul, Nat.floor_div_nat, Nat.floor_natCast]

/-- C5: for every loaded logo (positive dimensions), the float
computation of `add_logo` produces exactly the sizes and offsets the
spec states, including at `W = H`, where the source's strict `W > H`
test takes the other branch but computes the same pair. -/
theorem add_logo_dims_matches_spec (W H S : Nat) (r : ℚ) (hW : 1 ≤ W) (hH : 1 ≤ H) :
    add_logo_dims W H S r = add_logo_dims_from_spec W H S r := by
  simp only [add_logo_dims, add_logo_dims_from_spec]
  rcases lt_trichotomy H W with h | h | h
  · rw [if_pos h, if_pos (le_of_lt h), natTrunc_mul_div]
  · subst h
    rw [if_neg (lt_irrefl _), if_pos le_rfl, natTrunc_mul_div]
    rw [Nat.mul_div_cancel_left _ (by omega : 0 < H)]
  · rw [if_neg (by omega), if_neg (by omega), natTrunc_mul_div]

theorem add_logo_dims_matches_spec_witness :
    add_logo_dims 32 16 300 (3 / 10) = add_logo_dims_from_spec 32 16 300 (3 / 10) :=
  add_logo_dims_matches_spec 32 16 300 (3 / 10) (by omega) (by omega)

theorem string_foldl_append (xs : List String) (x : String) :
    xs.foldl (fun r s => r ++ s) x = x ++ String.join xs := by
  induction xs generalizing x with
  | nil => rw [List.foldl_nil]; exact (String.append_empty x).symm
  | cons a t ih =>
    rw [List.foldl_cons, ih]
    have hj : String.join (a :: t) = a ++ String.join t := by
      show List.foldl _ "" (a :: t) = _
      rw [List.foldl_cons, String.empty_append, ih]
    rw [hj, String.append_assoc]

theorem string_join_cons (a : String) (t : List String) :
    String.join (a :: t) = a ++ String.join t := by
  show List.foldl _ "" (a :: t) = _
  rw [List.foldl_cons, String.empty_append, string_foldl_append]

theorem string_join_append (l1 l2 : List String) :
    String.join (l1 ++ l2) = String.join l1 ++ String.join l2 := by
  induction l1 with
  | nil => rw [List.nil_append]; exact (String.empty_append _).symm
  | cons a t ih =>
    rw [List.cons_append, string_join_cons, string_join_cons, ih, String.append_assoc]

theorem string_join_flatMap {α β : Type} (l : List α) (h : α → List β) (f : β → String) :
    String.join ((l.flatMap h).map f) =
      String.join (l.map fun a => String.join ((h a).map f)) := by
  induction l with
  | nil => rfl
  | cons a t ih =>
    rw [List.flatMap_cons, List.map_append, string_join_append, ih, List.map_cons,
      string_join_cons]

theorem foldl_filter_append (p : Nat → Bool) (f : Nat → String) (l : List Nat) (s : String) :
    l.foldl (fun acc n => if p n then acc ++ f n else acc) s =
      s ++ String.join ((l.filter p).map f) := by
  induction l generalizing s with
  | nil => rw [List.foldl_nil, List.filter_nil, List.map_nil]; exact (String.append_empty s).symm
  | cons a t ih =>
    rw [List.foldl_cons, List.filter_cons]
    by_cases hp : p a = true
    · rw [if_pos hp, if_pos hp, ih, List.map_cons, string_join_cons, String.append_assoc]
    · rw [if_neg hp, if_neg hp, ih]

theorem foldl_map_append (g : Nat → String) (l : List Nat) (s : String) :
    l.foldl (fun acc n => acc ++ g n) s = s ++ String.join (l.map g) := by
  induction l generalizing s with
  | nil => rw [List.foldl_nil, List.map_nil]; exact (String.append_empty s).symm
  | cons a t ih =>
    rw [List.foldl_cons, ih, List.map_cons, string_join_cons, String.append_assoc]

/-- C6: the SVG document starts with a header whose `viewBox` is the
square of side `(N + 2·border) · 10` and whose `width`/`height` equal
`size_px`; changing the eye style leaves the document unchanged; and the
body is exactly one shape per dark module in row-major order, each
chosen by `dot_style` alone. -/
theorem save_as_svg_spec (qr : QrMatrix) (args : Args) (e : String) :
    (∃ rest, save_as_svg qr args =
      svgHeader ((qr.width + 2 * args.border) * 10) args.size ++ rest)
    ∧ save_as_svg qr { args with eye_style := e } = save_as_svg qr args
    ∧ save_as_svg qr args = svgPrelude qr args ++
        String.join ((rowMajorDark qr).map
          fun p => moduleShape args.dot_style args.border (fillAttr args) p.1 p.2) ++
        "</svg>\n" := by
  have hbody : save_as_svg qr args = svgPrelude qr args ++
      String.join ((rowMajorDark qr).map
        fun p => moduleShape args.dot_style args.border (fillAttr args) p.1 p.2) ++
      "</svg>\n" := by
    unfold save_as_svg
    simp only [foldl_filter_append, foldl_map_append]
    rw [rowMajorDark, string_join_flatMap]
    simp only [List.map_map]
    rfl
  refine ⟨?_, rfl, hbody⟩
  rw [hbody]
  simp only [svgPrelude, String.append_assoc]
  exact ⟨_, rfl⟩
